import Mathlib

/-!
Verification development for the void-rs game-protocol server.

The repository is a small Minecraft-style protocol server written in Rust:
a VarInt codec (`src/protocol/varint.rs`), length-prefixed packet framing
(`src/protocol/mod.rs`), a typed packet builder (`src/protocol/packet.rs`),
an NBT encoder (`src/nbt/mod.rs`) and a per-connection session state machine
(`src/main.rs`).

This file gives a shallow embedding of those components.  Machine integers
are modelled as `Int`/`Nat` with explicit two's-complement conversions; the
i32 value of a VarInt is carried around as its unsigned 32-bit representative
(`toU32`/`toI32`).  Loops whose termination is in question (the VarInt encode
loops use Rust's arithmetic right shift `>>` on `i32`, which never reaches the
exit condition on negative inputs) are modelled with an explicit fuel
parameter: `none` for every fuel means the loop does not terminate.
Byte streams are `List Nat` with each element < 256.
-/

namespace VoidRs

/-! ## Two's-complement conversions -/

/-- Unsigned 32-bit representative of an `i32` value (two's complement). -/
def toU32 (v : Int) : Nat := (v % (2 ^ 32 : Int)).toNat

/-- Signed value of an unsigned 32-bit representative. -/
def toI32 (n : Nat) : Int := if n < 2 ^ 31 then (n : Int) else (n : Int) - 2 ^ 32

/-- Rust's `as usize` cast of an `i32` value: sign extension to 64 bits, then
reinterpretation as an unsigned 64-bit integer. -/
def i32AsUsize (v : Int) : Nat := if 0 ≤ v then v.toNat else (2 ^ 64 + v).toNat

/-- Rust's `as i32` cast of a `usize` value: keep the low 32 bits, reinterpret
as signed. -/
def usizeAsI32 (n : Nat) : Int := toI32 (n % 2 ^ 32)

/-- Arithmetic right shift by 7 of an `i32`, acting on the unsigned 32-bit
representative: this is Rust's `value >>= 7` for `value : i32`, which
sign-extends (the top 7 bits are copies of the old sign bit). -/
def asr7 (n : Nat) : Nat := n / 128 + (if 2 ^ 31 ≤ n then 2 ^ 32 - 2 ^ 25 else 0)

/-! ## VarInt codec (`src/protocol/varint.rs`)

`VarInt::to_bytes` (and identically `VarInt::write`):

    loop {
        if (value & !0x7F) == 0 { bytes.push(value as u8); break; }
        else { bytes.push((value & 0x7F | 0x80) as u8); value >>= 7; }
    }

For an `i32`, `(value & !0x7F) == 0` holds iff `0 ≤ value ≤ 127`, i.e. iff the
unsigned representative is < 128.  The push in the else branch is
`n % 128 + 128`, and the shift is the arithmetic `asr7`. -/

/-- One fueled run of the `VarInt::to_bytes` loop on the unsigned 32-bit
representative.  `none` means the loop did not finish within the fuel. -/
def toBytesLoop : Nat → Nat → Option (List Nat)
  | 0, _ => none
  | fuel + 1, n =>
    if n < 128 then some [n]
    else
      match toBytesLoop fuel (asr7 n) with
      | none => none
      | some bs => some ((n % 128 + 128) :: bs)

/-- `VarInt::length`:

    loop { length += 1; if (value & !0x7F) == 0 { break } else { value >>= 7 } }

with the same arithmetic shift, hence the same (non-)termination behaviour. -/
def lengthLoop : Nat → Nat → Option Nat
  | 0, _ => none
  | fuel + 1, n =>
    if n < 128 then some 1
    else
      match lengthLoop fuel (asr7 n) with
      | none => none
      | some l => some (l + 1)

/-- `PacketBuilder::with_var_int`:

    loop {
        let mut byte = (value & 0b01111111) as u8;
        value >>= 7;
        if value != 0 { byte |= 0b10000000; }
        self.buffer.push(byte);
        if value == 0 { break; }
    }

Again `value` is `i32` and `>>=` is the arithmetic shift. -/
def withVarIntLoop : Nat → Nat → List Nat → Option (List Nat)
  | 0, _, _ => none
  | fuel + 1, n, buf =>
    let n' := asr7 n
    let b := if n' ≠ 0 then n % 128 + 128 else n % 128
    if n' = 0 then some (buf ++ [b]) else withVarIntLoop fuel n' (buf ++ [b])

/-- A terminating run of the encode loop never needs more than 5 iterations
(32 bits, 7 per byte), so fuel 40 is conservative; `VarInt.to_bytes v = none`
happens exactly when the Rust loop runs forever (proved below for negative
`v`). -/
def VarIntBytes (v : Int) : Option (List Nat) := toBytesLoop 40 (toU32 v)

/-- `VarInt::length` with the same conservative fuel. -/
def VarIntLength (v : Int) : Option Nat := lengthLoop 40 (toU32 v)

/-- Reference encoding of a non-negative value: the canonical LEB128-style
byte sequence.  Written with fuel so that it is a plain structural recursion;
fuel 39 covers every `n < 128 ^ 39`. -/
def encNatAux : Nat → Nat → List Nat
  | 0, n => [n % 128]
  | fuel + 1, n => if n < 128 then [n] else (n % 128 + 128) :: encNatAux fuel (n / 128)

/-- Canonical VarInt encoding of a non-negative value below `2 ^ 31`. -/
def encNat (n : Nat) : List Nat := encNatAux 39 n

/-- `VarInt::read`:

    let mut value = 0; let mut position = 0;
    loop {
        let byte = reader.read_u8().await? as i32;
        value |= ((byte & 0x7F) as i32) << position;
        if (byte & 0x80) == 0 { break; }
        position += 7;
        if position >= 32 { return Err("VarInt is too big"); }
    }

The accumulator is an `i32`; shifting left truncates to 32 bits before the
bitwise or. `none` covers both a closed stream and the too-big error. -/
def readLoop : Nat → Nat → List Nat → Option (Nat × List Nat)
  | _, _, [] => none
  | pos, acc, b :: rest =>
    let acc' := acc ||| ((b % 128) <<< pos % 2 ^ 32)
    if b &&& 128 = 0 then some (acc', rest)
    else if pos + 7 ≥ 32 then none
    else readLoop (pos + 7) acc' rest

/-- `VarInt::read` from a byte list, returning the signed value and the rest
of the stream. -/
def readVarIntFrom (bytes : List Nat) : Option (Int × List Nat) :=
  match readLoop 0 0 bytes with
  | none => none
  | some (acc, rest) => some (toI32 acc, rest)

/-! ## Packet framing (`src/protocol/mod.rs`) -/

/-- `read_exact` into a buffer of `count` bytes: succeeds iff the stream still
holds at least `count` bytes. -/
def readExact (count : Nat) (bytes : List Nat) : Option (List Nat × List Nat) :=
  if count ≤ bytes.length then some (bytes.take count, bytes.drop count) else none

/-- Header part of `read_generic_packet`: decode the outer length VarInt,
decode the packet-id VarInt, and compute the payload byte count

    let length = length - packet_id.length() as i32;
    let mut buffer = vec![0; length as usize];

Returns `(packet_id, allocated byte count, rest of stream)`.  The subtraction
is `i32` arithmetic and the `as usize` cast sign-extends, so a negative
difference becomes a count close to `2 ^ 64`.  There is no check that the
outer length covers the id or that the count is sane. -/
def frameHeader (bytes : List Nat) : Option (Int × Nat × List Nat) :=
  match readVarIntFrom bytes with
  | none => none
  | some (len, r1) =>
    match readVarIntFrom r1 with
    | none => none
    | some (pid, r2) =>
      match VarIntLength pid with
      | none => none
      | some k =>
        some (pid, i32AsUsize (toI32 ((len - (k : Int)) % 2 ^ 32).toNat), r2)

/-- `read_generic_packet`: frame header, then `read_exact` of the computed
count. -/
def read_generic_packet (bytes : List Nat) : Option ((Int × List Nat) × List Nat) :=
  match frameHeader bytes with
  | none => none
  | some (pid, needed, r2) =>
    match readExact needed r2 with
    | none => none
    | some (buf, r3) => some ((pid, buf), r3)

/-- `write_generic_packet`:

    let length = VarInt::new((VarInt::new(packet_id).length() + buffer.len()) as i32);
    length.write(writer)?; VarInt::new(packet_id).write(writer)?;
    writer.write_all(buffer)?;

`none` when one of the VarInt loops does not terminate. -/
def write_generic_packet (packetId : Int) (buffer : List Nat) : Option (List Nat) :=
  match VarIntLength packetId with
  | none => none
  | some k =>
    match VarIntBytes (usizeAsI32 (k + buffer.length)) with
    | none => none
    | some lb =>
      match VarIntBytes packetId with
      | none => none
      | some ib => some (lb ++ ib ++ buffer)

/-- Continuation-byte test for UTF-8 validation. -/
def isCont (b : Nat) : Bool := 0x80 ≤ b && b ≤ 0xBF

/-- Validity of a byte sequence as UTF-8, per RFC 3629 (what Rust's
`String::from_utf8` checks): no overlong forms, no surrogates, at most
U+10FFFF. -/
def isValidUtf8 : List Nat → Bool
  | [] => true
  | b :: rest =>
    if b < 0x80 then isValidUtf8 rest
    else if b < 0xC2 then false
    else if b < 0xE0 then
      match rest with
      | c1 :: rest' => isCont c1 && isValidUtf8 rest'
      | [] => false
    else if b < 0xF0 then
      match rest with
      | c1 :: c2 :: rest' =>
        (if b = 0xE0 then decide (0xA0 ≤ c1 ∧ c1 ≤ 0xBF)
         else if b = 0xED then decide (0x80 ≤ c1 ∧ c1 ≤ 0x9F)
         else isCont c1) && isCont c2 && isValidUtf8 rest'
      | _ => false
    else if b < 0xF5 then
      match rest with
      | c1 :: c2 :: c3 :: rest' =>
        (if b = 0xF0 then decide (0x90 ≤ c1 ∧ c1 ≤ 0xBF)
         else if b = 0xF4 then decide (0x80 ≤ c1 ∧ c1 ≤ 0x8F)
         else isCont c1) && isCont c2 && isCont c3 && isValidUtf8 rest'
      | _ => false
    else false

/-- Byte-count part of `read_string`: decode the length VarInt and cast it
with `as usize` — a negative decoded length becomes a count close to
`2 ^ 64`.  Returns `(allocated byte count, rest of stream)`. -/
def stringNeeded (bytes : List Nat) : Option (Nat × List Nat) :=
  match readVarIntFrom bytes with
  | none => none
  | some (len, rest) => some (i32AsUsize len, rest)

/-- `read_string`: length VarInt, `read_exact`, then `String::from_utf8`
validation.  The string value is kept as its UTF-8 byte sequence. -/
def read_string (bytes : List Nat) : Option (List Nat × List Nat) :=
  match stringNeeded bytes with
  | none => none
  | some (n, rest) =>
    match readExact n rest with
    | none => none
    | some (buf, r2) => if isValidUtf8 buf then some (buf, r2) else none

/-! ## NBT encoder (`src/nbt/mod.rs`)

Fixed-width integers are carried as `Int` (i8/i16/i32/i64); an `f32`/`f64` is
carried as the list of its 4/8 IEEE-754 big-endian bytes, which is exactly
what `to_be_bytes` produces for it.  Strings and names are carried as their
UTF-8 byte sequences (`as_bytes` of the Rust `String`). -/

/-- Big-endian bytes of the low `8 * w` bits of a value: Rust's
`to_be_bytes` after an `as`-cast to the `w`-byte integer type. -/
def beBytes (w : Nat) (v : Int) : List Nat :=
  (List.range w).map fun i => ((v % (2 ^ (8 * w) : Int)).toNat / 2 ^ (8 * (w - 1 - i))) % 256

mutual
/-- The `NBT` tag union of `src/nbt/mod.rs`. -/
inductive NBT where
  | End
  | Byte (v : Int)
  | Short (v : Int)
  | Int (v : Int)
  | Long (v : Int)
  | Float (bits : List Nat)
  | Double (bits : List Nat)
  | ByteArray (v : List Nat)
  | String (v : List Nat)
  | List (v : List NBT)
  | Compound (v : List NamedTag)
  | IntArray (v : List Int)
  | LongArray (v : List Int)
/-- A tag paired with a name (`NamedTag`). -/
inductive NamedTag where
  | mk (name : List Nat) (tag : NBT)
end

/-- `NBT::type_id`. -/
def NBT.typeId : NBT → Nat
  | .End => 0
  | .Byte _ => 1
  | .Short _ => 2
  | .Int _ => 3
  | .Long _ => 4
  | .Float _ => 5
  | .Double _ => 6
  | .ByteArray _ => 7
  | .String _ => 8
  | .List _ => 9
  | .Compound _ => 10
  | .IntArray _ => 11
  | .LongArray _ => 12

mutual
/-- `NBT::to_bytes` — the value bytes of a tag.  The `Byte` arm of the source
returns the accumulator `out` without ever pushing the value byte:

    NBT::Byte(b) => { return out; }

so a `Byte` tag serializes to no bytes at all.  `none` models the `assert!`
panic on a heterogeneous `List`. -/
def NBT.toBytes : NBT → Option (List Nat)
  | .End => some [0]
  | .Byte _ => some []
  | .Short v => some (beBytes 2 v)
  | .Int v => some (beBytes 4 v)
  | .Long v => some (beBytes 8 v)
  | .Float bits => some bits
  | .Double bits => some bits
  | .ByteArray v => some (beBytes 2 (v.length : Int) ++ v)
  | .String s => some (beBytes 2 (s.length : Int) ++ s)
  | .List xs =>
    let t := match xs with | [] => 0 | x :: _ => x.typeId
    match NBT.listBytes t xs with
    | none => none
    | some payload => some (t :: beBytes 4 (xs.length : Int) ++ payload)
  | .Compound xs =>
    match NBT.compoundBytes xs with
    | none => none
    | some payload => some (payload ++ [0])
  | .IntArray xs => some (beBytes 4 (xs.length : Int) ++ (xs.map (beBytes 4)).flatten)
  | .LongArray xs => some (beBytes 4 (xs.length : Int) ++ (xs.map (beBytes 8)).flatten)
/-- Element loop of the `List` arm, with the `assert!(nbt.type_id() == type_id)`
contract check. -/
def NBT.listBytes : Nat → List NBT → Option (List Nat)
  | _, [] => some []
  | t, x :: xs =>
    if x.typeId = t then
      match NBT.toBytes x, NBT.listBytes t xs with
      | some b, some rest => some (b ++ rest)
      | _, _ => none
    else none
/-- Child loop of the `Compound` arm: each child is a full named tag. -/
def NBT.compoundBytes : List NamedTag → Option (List Nat)
  | [] => some []
  | x :: xs =>
    match NamedTag.toBytes x, NBT.compoundBytes xs with
    | some b, some rest => some (b ++ rest)
    | _, _ => none
/-- `NamedTag::to_bytes` (`to_bytes_internal(true)`): a single `0x00` for an
`End` tag, otherwise type-id byte, 16-bit big-endian name length, name bytes,
then the tag's value bytes. -/
def NamedTag.toBytes : NamedTag → Option (List Nat)
  | .mk name tag =>
    if tag.typeId = 0 then some [0]
    else
      match NBT.toBytes tag with
      | none => none
      | some b => some (tag.typeId :: (beBytes 2 (name.length : Int) ++ name) ++ b)
end

/-! ## Session state machine (`src/main.rs`)

The session's `state` field is an `i32`: 0 = Handshake, 1 = Status,
2 = Login, 3 = Play; `-1` is the closed sentinel checked by the connection
loop.  The credential store is external; a handler that consults it receives
the store's answer as a `DbRes` oracle argument. -/

/-- Per-connection mutable state (the `State` struct, minus the socket and the
store handle).  The username is kept as its UTF-8 bytes. -/
structure Session where
  phase : Int
  username : Option (List Nat)
deriving DecidableEq, Repr

/-- Observable actions of one `receive_packet` call, in order:
`send i` is one `write_all`+`flush` of a packet built with id `i`;
`setPhase s` is an assignment `self.state = s`; the `db…` events are calls
into the credential store. -/
inductive Event where
  | send (id : Int)
  | setPhase (s : Int)
  | dbExists
  | dbRegister
  | dbAuth
deriving DecidableEq, Repr

/-- Oracle for the single credential-store call a handler makes:
`ok b` is `Ok(b)`, `err` is a store error. -/
inductive DbRes where
  | ok (b : Bool)
  | err
deriving DecidableEq, Repr

/-- Result of one `receive_packet` call: `ok` is `Ok(())`; `err (some r)` is
the `Err` produced by `kick` with reason `r`; `err none` is any other `Err`
(framing, UTF-8 or read failure). -/
inductive RpResult where
  | ok
  | err (kickReason : Option String)
deriving DecidableEq, Repr

/-- Rust's `str::split(" ")` on the UTF-8 bytes: split on every 0x20 byte,
keeping empty pieces; the result is never empty. -/
def splitOnSpace : List Nat → List (List Nat)
  | [] => [[]]
  | b :: rest =>
    if b = 32 then [] :: splitOnSpace rest
    else
      match splitOnSpace rest with
      | [] => [[b]]
      | t :: ts => (b :: t) :: ts

/-- UTF-8 bytes of `"login"`. -/
def loginCmd : List Nat := [108, 111, 103, 105, 110]

/-- UTF-8 bytes of `"register"`. -/
def registerCmd : List Nat := [114, 101, 103, 105, 115, 116, 101, 114]

/-- `State::kick` sends one disconnect packet (id 0x19) and returns `Err`. -/
def kickEvents : List Event := [.send 0x19]

/-- The 5 × 5 chunk loop: 25 chunk-data packets, id 0x21. -/
def chunkEvents : List Event := List.replicate 25 (.send 0x21)

/-- Event trace of the login-start handler (phase 2, packet id 0) after the
username has been read, as laid out in `src/main.rs` lines 163–368:
login success (0x02), join (0x25), `self.state = 3`, slot select (0x4a),
recipes (0x6a), tags (0x6b), entity event (0x1a), position sync (0x39),
player info (0x37), set center chunk (0x4b) — written twice, lines 271–275 —
25 chunks (0x21), position sync (0x39), then the `player_exists` call; on
`Ok` a system message (0x5d) followed by one more write of the still-bound
`response` variable, which at line 365 is the 0x39 position-sync packet; on
`Err` a kick. -/
def loginStartEvents (db : DbRes) : List Event :=
  [.send 0x02, .send 0x25, .setPhase 3, .send 0x4a, .send 0x6a, .send 0x6b,
   .send 0x1a, .send 0x39, .send 0x37, .send 0x4b, .send 0x4b] ++
  chunkEvents ++ [.send 0x39, .dbExists] ++
  match db with
  | .ok false => [.send 0x5d, .send 0x39]
  | .ok true => [.send 0x5d, .send 0x39]
  | .err => kickEvents

/-- The chat-command handler (phase 3, packet id 0x04), after `read_string`
has produced the command bytes (`src/main.rs` lines 402–505).  Note the
register arm's nested guard

    if args[1] != args[2] { if args.len() != 2 { return kick("Passwords do not match."); } }

the inner condition is reached only when `args.len() == 3`, so it is always
true there and the kick fires on every mismatch. -/
def handleCommand (username : Option (List Nat)) (cmd : List Nat) (db : DbRes) :
    List Event × RpResult :=
  let args := splitOnSpace cmd
  if args.getD 0 [] = loginCmd then
    if args.length ≠ 2 then
      (kickEvents, .err (some "Invalid syntax. Usage: /login [password]"))
    else
      match username with
      | none => (kickEvents, .err (some "Internal error."))
      | some _ =>
        match db with
        | .ok false =>
          (.dbAuth :: kickEvents, .err (some "Invalid password or user not registered."))
        | .ok true => ([.dbAuth, .send 0x16], .ok)
        | .err =>
          (.dbAuth :: kickEvents, .err (some "Database error. Please contact one of the admins."))
  else if args.getD 0 [] = registerCmd then
    if args.length ≠ 3 then
      (kickEvents, .err (some "Invalid syntax. Usage: /register [password] [password]"))
    else if args.getD 1 [] ≠ args.getD 2 [] ∧ args.length ≠ 2 then
      (kickEvents, .err (some "Passwords do not match."))
    else
      match username with
      | none => (kickEvents, .err (some "Internal error."))
      | some _ =>
        match db with
        | .ok false => (.dbRegister :: kickEvents, .err (some "This user is already registered."))
        | .ok true => ([.dbRegister, .send 0x16], .ok)
        | .err =>
          (.dbRegister :: kickEvents, .err (some "Database error. Please contact one of the admins."))
  else (kickEvents, .err (some "Invalid command."))

/-- Payload parse of the handshake packet (phase 0, packet id 0): protocol
version (VarInt), server address (string), server port (big-endian u16),
next state (VarInt).  Returns `(version, address bytes, port, next_state)`. -/
def parseHandshake (payload : List Nat) : Option (Int × List Nat × Nat × Int) :=
  match readVarIntFrom payload with
  | none => none
  | some (pv, r1) =>
    match read_string r1 with
    | none => none
    | some (addr, r2) =>
      match readExact 2 r2 with
      | none => none
      | some (pb, r3) =>
        match readVarIntFrom r3 with
        | none => none
        | some (ns, _) => some (pv, addr, 256 * pb.getD 0 0 + pb.getD 1 0, ns)

/-- The dispatch of `State::receive_packet` after the frame has been read:
the outer `match self.state`, then `match packet_id`, per `src/main.rs`
lines 113–514.  Returns the new session, the event trace, and the result.
Unknown packet ids in a known phase only log; the wildcard phase arm (line
511) only logs and returns `Ok(())`. -/
def receivePacket (s : Session) (packetId : Int) (payload : List Nat) (db : DbRes) :
    Session × List Event × RpResult :=
  if s.phase = 0 then
    if packetId = 0 then
      match parseHandshake payload with
      | none => (s, [], .err none)
      | some (_, _, _, ns) => ({ s with phase := ns }, [.setPhase ns], .ok)
    else (s, [], .ok)
  else if s.phase = 1 then
    if packetId = 0 then (s, [.send 0x00], .ok)
    else if packetId = 1 then
      match readExact 8 payload with
      | none => (s, [], .err none)
      | some _ => (s, [.send 0x01], .ok)
    else (s, [], .ok)
  else if s.phase = 2 then
    if packetId = 0 then
      match read_string payload with
      | none => (s, [], .err none)
      | some (name, _) =>
        ({ phase := 3, username := some name }, loginStartEvents db,
         match db with
         | .ok _ => .ok
         | .err => .err (some "Database error. Please contact one of the admins."))
    else (s, [], .ok)
  else if s.phase = 3 then
    if packetId = 0x20 then
      match readExact 4 payload with
      | none => (s, [], .err none)
      | some _ => (s, [.send 0x2f], .ok)
    else if packetId = 0x12 then
      match readExact 8 payload with
      | none => (s, [], .err none)
      | some _ => (s, [.send 0x20], .ok)
    else if packetId = 0x5 then
      match read_string payload with
      | none => (s, [], .err none)
      | some _ => (s, [], .ok)
    else if packetId = 0x4 then
      match read_string payload with
      | none => (s, [], .err none)
      | some (cmd, _) =>
        let (evts, r) := handleCommand s.username cmd db
        (s, evts, r)
    else (s, [], .ok)
  else (s, [], .ok)

/-- The connection loop guard of `State::connect` (lines 533–544): after a
`receive_packet` call, the loop reads another frame iff the call returned
`Ok` and the phase is not the `-1` sentinel. -/
def loopContinues (s : Session) (r : RpResult) : Bool :=
  match r with
  | .ok => decide (s.phase ≠ -1)
  | .err _ => false

/-- Packet ids of the send events of a trace, in order. -/
def sendIds (events : List Event) : List Int :=
  events.filterMap fun e =>
    match e with
    | .send i => some i
    | _ => none

/-- Whether an event is a phase assignment. -/
def isPhaseSet : Event → Bool
  | .setPhase _ => true
  | _ => false


/-! ## Lemmas about the VarInt encode loops -/

/-- The arithmetic shift keeps a negative `i32` strictly negative: on unsigned
representatives, `asr7` maps `[2 ^ 31, 2 ^ 32)` into itself. -/
theorem asr7_of_neg {n : Nat} (h1 : 2 ^ 31 ≤ n) (h2 : n < 2 ^ 32) :
    2 ^ 31 ≤ asr7 n ∧ asr7 n < 2 ^ 32 := by
  have hd : n / 128 < 2 ^ 25 := by
    apply Nat.div_lt_of_lt_mul
    calc n < 2 ^ 32 := h2
      _ = 128 * 2 ^ 25 := by norm_num
  unfold asr7
  rw [if_pos h1]
  omega

/-- The `VarInt::to_bytes` loop never terminates on a negative value. -/
theorem toBytesLoop_neg (fuel : Nat) :
    ∀ n, 2 ^ 31 ≤ n → n < 2 ^ 32 → toBytesLoop fuel n = none := by
  induction fuel with
  | zero => intro n _ _; rfl
  | succ f ih =>
    intro n h1 h2
    obtain ⟨a1, a2⟩ := asr7_of_neg h1 h2
    unfold toBytesLoop
    rw [if_neg (by omega), ih _ a1 a2]

/-- The `VarInt::length` loop never terminates on a negative value. -/
theorem lengthLoop_neg (fuel : Nat) :
    ∀ n, 2 ^ 31 ≤ n → n < 2 ^ 32 → lengthLoop fuel n = none := by
  induction fuel with
  | zero => intro n _ _; rfl
  | succ f ih =>
    intro n h1 h2
    obtain ⟨a1, a2⟩ := asr7_of_neg h1 h2
    unfold lengthLoop
    rw [if_neg (by omega), ih _ a1 a2]

/-- The `PacketBuilder::with_var_int` loop never terminates on a negative
value. -/
theorem withVarIntLoop_neg (fuel : Nat) :
    ∀ n buf, 2 ^ 31 ≤ n → n < 2 ^ 32 → withVarIntLoop fuel n buf = none := by
  induction fuel with
  | zero => intro n buf _ _; rfl
  | succ f ih =>
    intro n buf h1 h2
    obtain ⟨a1, a2⟩ := asr7_of_neg h1 h2
    unfold withVarIntLoop
    simp only []
    rw [if_neg (by omega)]
    exact ih _ _ a1 a2

/-- On a non-negative value the encode loop terminates with the canonical
encoding. -/
theorem toBytesLoop_pos : ∀ fuel n, n < 128 ^ fuel → n < 2 ^ 31 →
    toBytesLoop (fuel + 1) n = some (encNatAux fuel n) := by
  intro fuel
  induction fuel with
  | zero =>
    intro n h1 _
    have : n = 0 := by simpa using h1
    subst this
    rfl
  | succ f ih =>
    intro n h1 h2
    unfold toBytesLoop encNatAux
    by_cases h : n < 128
    · rw [if_pos h, if_pos h]
    · rw [if_neg h, if_neg h]
      have hasr : asr7 n = n / 128 := by
        unfold asr7
        rw [if_neg (by omega)]
        omega
      have hr : n / 128 < 128 ^ f := by
        apply Nat.div_lt_of_lt_mul
        calc n < 128 ^ (f + 1) := h1
          _ = 128 * 128 ^ f := by rw [pow_succ, Nat.mul_comm]
      rw [hasr, ih (n / 128) hr (lt_of_le_of_lt (Nat.div_le_self n 128) h2)]

/-- On a non-negative value the length loop returns the canonical encoded
length. -/
theorem lengthLoop_pos : ∀ fuel n, n < 128 ^ fuel → n < 2 ^ 31 →
    lengthLoop (fuel + 1) n = some (encNatAux fuel n).length := by
  intro fuel
  induction fuel with
  | zero =>
    intro n h1 _
    have : n = 0 := by simpa using h1
    subst this
    rfl
  | succ f ih =>
    intro n h1 h2
    unfold lengthLoop encNatAux
    by_cases h : n < 128
    · rw [if_pos h, if_pos h]
      simp
    · rw [if_neg h, if_neg h]
      have hasr : asr7 n = n / 128 := by
        unfold asr7
        rw [if_neg (by omega)]
        omega
      have hr : n / 128 < 128 ^ f := by
        apply Nat.div_lt_of_lt_mul
        calc n < 128 ^ (f + 1) := h1
          _ = 128 * 128 ^ f := by rw [pow_succ, Nat.mul_comm]
      rw [hasr, ih (n / 128) hr (lt_of_le_of_lt (Nat.div_le_self n 128) h2)]
      simp

/-- Bound on the canonical encoded length. -/
theorem encNatAux_length_le : ∀ fuel j n, n < 128 ^ (j + 1) →
    (encNatAux fuel n).length ≤ j + 1 := by
  intro fuel
  induction fuel with
  | zero => intro j n _; simp [encNatAux]
  | succ f ih =>
    intro j n h1
    unfold encNatAux
    by_cases h : n < 128
    · simp [h]
    · rw [if_neg h]
      have hj : 1 ≤ j := by
        by_contra hc
        have : j = 0 := by omega
        subst this
        simp at h1
        omega
      have hr : n / 128 < 128 ^ ((j - 1) + 1) := by
        apply Nat.div_lt_of_lt_mul
        calc n < 128 ^ (j + 1) := h1
          _ = 128 * 128 ^ ((j - 1) + 1) := by
            rw [← pow_succ']
            congr 1
            omega
      have := ih (j - 1) (n / 128) hr
      simp only [List.length_cons]
      omega



/-! ## Lemmas about the VarInt decode loop -/

/-- A byte below 128 has its continuation bit clear. -/
theorem land128_of_lt {b : Nat} (h : b < 128) : b &&& 128 = 0 := by
  apply Nat.eq_of_testBit_eq
  intro i
  rw [Nat.testBit_and, Nat.zero_testBit]
  rcases eq_or_ne i 7 with rfl | hne
  · rw [Nat.testBit_lt_two_pow (show b < 2 ^ 7 by omega)]
    simp
  · have : Nat.testBit 128 i = false := by
      have h128 : (128 : Nat) = 2 ^ 7 := by norm_num
      rw [h128, Nat.testBit_two_pow]
      simpa using fun hc => hne hc.symm
    simp [this]

/-- A byte of the form `r + 128` with `r < 128` has its continuation bit
set. -/
theorem land128_of_ge {r : Nat} (h : r < 128) : (r + 128) &&& 128 ≠ 0 := by
  intro hc
  have h7 : ((r + 128) &&& 128).testBit 7 = false := by rw [hc, Nat.zero_testBit]
  rw [Nat.testBit_and] at h7
  have ht : (r + 128).testBit 7 = true := by
    have he : r + 128 = 2 ^ 7 * 1 + r := by omega
    rw [he, Nat.testBit_mul_pow_two_add 1 (show r < 2 ^ 7 by omega) 7]
    simp
  have h128 : (128 : Nat) = 2 ^ 7 := by norm_num
  rw [ht, h128, Nat.testBit_two_pow] at h7
  simp at h7

/-- Merging a fresh 7-bit group into the accumulator is plain addition, as
long as the group lands above all bits already present. -/
theorem lor_shift_eq_add {acc m pos : Nat} (hacc : acc < 2 ^ pos)
    (hm : m * 2 ^ pos < 2 ^ 32) :
    acc ||| (m <<< pos % 2 ^ 32) = acc + m * 2 ^ pos := by
  rw [Nat.shiftLeft_eq, Nat.mod_eq_of_lt hm, Nat.lor_comm, Nat.mul_comm m (2 ^ pos),
    ← Nat.mul_add_lt_is_or hacc m]
  omega

/-- Decoding the canonical encoding of `n` from position `pos` with
accumulator `acc` yields `acc + n * 2 ^ pos` and leaves the rest of the
stream untouched. -/
theorem readLoop_encNatAux : ∀ fuel n pos acc rest, n < 128 ^ fuel →
    n < 2 ^ (32 - pos) → acc < 2 ^ pos → pos % 7 = 0 → pos ≤ 28 →
    readLoop pos acc (encNatAux fuel n ++ rest) = some (acc + n * 2 ^ pos, rest) := by
  intro fuel
  induction fuel with
  | zero =>
    intro n pos acc rest h1 h2 hacc hm hp
    have hn : n = 0 := by simpa using h1
    subst hn
    show readLoop pos acc (0 :: rest) = _
    unfold readLoop
    rw [if_pos (by decide : (0 : Nat) &&& 128 = 0)]
    rw [show (0 : Nat) % 128 = 0 from rfl]
    rw [lor_shift_eq_add hacc (show 0 * 2 ^ pos < 2 ^ 32 by
      have : (0 : Nat) * 2 ^ pos = 0 := by ring
      rw [this]
      norm_num)]
  | succ f ih =>
    intro n pos acc rest h1 h2 hacc hm hp
    have hposp : 0 < (2 : Nat) ^ pos := Nat.pos_pow_of_pos pos (by norm_num)
    by_cases h : n < 128
    · have he : encNatAux (f + 1) n = [n] := by
        unfold encNatAux
        rw [if_pos h]
      rw [he]
      show readLoop pos acc (n :: rest) = _
      unfold readLoop
      rw [if_pos (land128_of_lt h)]
      rw [Nat.mod_eq_of_lt h]
      have hb : n * 2 ^ pos < 2 ^ 32 := by
        calc n * 2 ^ pos < 2 ^ (32 - pos) * 2 ^ pos := (Nat.mul_lt_mul_right hposp).mpr h2
          _ = 2 ^ 32 := by
              rw [← pow_add]
              congr 1
              omega
      rw [lor_shift_eq_add hacc hb]
    · have he : encNatAux (f + 1) n = (n % 128 + 128) :: encNatAux f (n / 128) := by
        conv_lhs => rw [encNatAux]
        rw [if_neg h]
      rw [he]
      show readLoop pos acc ((n % 128 + 128) :: (encNatAux f (n / 128) ++ rest)) = _
      have hpos : pos ≤ 21 := by
        have h7 : (2 : Nat) ^ 7 ≤ n := by omega
        have h32 : (7 : Nat) < 32 - pos :=
          (Nat.pow_lt_pow_iff_right (by norm_num : 1 < 2)).mp (lt_of_le_of_lt h7 h2)
        omega
      unfold readLoop
      rw [if_neg (land128_of_ge (Nat.mod_lt n (by norm_num)))]
      rw [if_neg (by omega : ¬ pos + 7 ≥ 32)]
      rw [show (n % 128 + 128) % 128 = n % 128 by omega]
      have hb : n % 128 * 2 ^ pos < 2 ^ 32 := by
        calc n % 128 * 2 ^ pos < 128 * 2 ^ pos :=
              (Nat.mul_lt_mul_right hposp).mpr (Nat.mod_lt n (by norm_num))
          _ ≤ 128 * 2 ^ 21 := by
              have := Nat.pow_le_pow_right (show 0 < 2 by norm_num) hpos
              omega
          _ < 2 ^ 32 := by norm_num
      rw [lor_shift_eq_add hacc hb]
      have hrec := ih (n / 128) (pos + 7) (acc + n % 128 * 2 ^ pos) rest ?_ ?_ ?_ ?_ ?_
      · rw [hrec]
        congr 2
        have hd : 128 * (n / 128) + n % 128 = n := Nat.div_add_mod n 128
        have hpow : (2 : Nat) ^ (pos + 7) = 2 ^ pos * 128 := by
          rw [pow_add]
          norm_num
        calc acc + n % 128 * 2 ^ pos + n / 128 * 2 ^ (pos + 7)
            = acc + (128 * (n / 128) + n % 128) * 2 ^ pos := by
              rw [hpow]
              ring
          _ = acc + n * 2 ^ pos := by rw [hd]
      · apply Nat.div_lt_of_lt_mul
        calc n < 128 ^ (f + 1) := h1
          _ = 128 * 128 ^ f := by rw [pow_succ, Nat.mul_comm]
      · apply Nat.div_lt_of_lt_mul
        calc n < 2 ^ (32 - pos) := h2
          _ = 128 * 2 ^ (32 - (pos + 7)) := by
            rw [show (32 : Nat) - pos = 7 + (32 - (pos + 7)) by omega, pow_add]
            norm_num
      · have hmul : (2 : Nat) ^ (pos + 7) = 2 ^ pos * 128 := by
          rw [pow_add]
          norm_num
        have hle : n % 128 * 2 ^ pos ≤ 127 * 2 ^ pos :=
          Nat.mul_le_mul_right _ (by omega)
        rw [hmul]
        nlinarith [hacc]
      · omega
      · omega



/-- On non-negative `i32` values the unsigned representative is `toNat`. -/
theorem toU32_nonneg {v : Int} (h0 : 0 ≤ v) (h1 : v < 2 ^ 31) : toU32 v = v.toNat := by
  unfold toU32
  rw [Int.emod_eq_of_lt h0 (by omega)]

/-- `toI32` is the identity below `2 ^ 31`. -/
theorem toI32_small {n : Nat} (h : n < 2 ^ 31) : toI32 n = (n : Int) := by
  unfold toI32
  rw [if_pos h]

/-- Every value below `2 ^ 31` is below `128 ^ 39`. -/
theorem lt_pow39 {n : Nat} (h : n < 2 ^ 31) : n < 128 ^ 39 := by
  calc n < 2 ^ 31 := h
    _ < 128 ^ 39 := by norm_num

/-- `VarInt::to_bytes` on a non-negative value below `2 ^ 31`. -/
theorem VarIntBytes_nonneg {v : Int} (h0 : 0 ≤ v) (h1 : v < 2 ^ 31) :
    VarIntBytes v = some (encNat v.toNat) := by
  have h2 : v.toNat < 2 ^ 31 := by omega
  unfold VarIntBytes encNat
  rw [toU32_nonneg h0 h1]
  exact toBytesLoop_pos 39 v.toNat (lt_pow39 h2) h2

/-- `VarInt::length` on a non-negative value below `2 ^ 31`. -/
theorem VarIntLength_nonneg {v : Int} (h0 : 0 ≤ v) (h1 : v < 2 ^ 31) :
    VarIntLength v = some (encNat v.toNat).length := by
  have h2 : v.toNat < 2 ^ 31 := by omega
  unfold VarIntLength encNat
  rw [toU32_nonneg h0 h1]
  exact lengthLoop_pos 39 v.toNat (lt_pow39 h2) h2

/-- The canonical encoding of an `i32`-ranged value takes at most 5 bytes. -/
theorem encNat_length_le5 {n : Nat} (h : n < 2 ^ 31) : (encNat n).length ≤ 5 := by
  have : n < 128 ^ (4 + 1) := by
    calc n < 2 ^ 31 := h
      _ < 128 ^ (4 + 1) := by norm_num
  simpa using encNatAux_length_le 39 4 n this

/-- `VarInt::read` inverts the canonical encoding of a value below
`2 ^ 31`. -/
theorem readVarIntFrom_encNat {n : Nat} (h : n < 2 ^ 31) (rest : List Nat) :
    readVarIntFrom (encNat n ++ rest) = some ((n : Int), rest) := by
  unfold readVarIntFrom encNat
  rw [readLoop_encNatAux 39 n 0 0 rest (lt_pow39 h) (by simpa using lt_trans h (by norm_num))
    (by norm_num) (by norm_num) (by norm_num)]
  simp [toI32_small h]

/-- C9: for every pair (id, payload) with id >= 0 whose frame length fits in
an `i32` (payload shorter than `2 ^ 31 - 5` bytes), reading a frame from the
byte sequence produced by writing the frame yields back exactly
(id, payload).  The bound is forced by `c9_counterexample`: the unchecked
`as i32` cast of the frame length makes the writer diverge on a 2 GiB
payload. -/
theorem c9_frame_roundtrip (id : Int) (payload : List Nat)
    (h0 : 0 ≤ id) (h1 : id < 2 ^ 31) (h2 : payload.length < 2 ^ 31 - 5) :
    ∃ bs, write_generic_packet id payload = some bs ∧
      read_generic_packet bs = some ((id, payload), []) := by
  have hk : VarIntLength id = some (encNat id.toNat).length := VarIntLength_nonneg h0 h1
  have hk5 : (encNat id.toNat).length ≤ 5 := encNat_length_le5 (by omega)
  have hL31 : (encNat id.toNat).length + payload.length < 2 ^ 31 := by omega
  have hLc : usizeAsI32 ((encNat id.toNat).length + payload.length) =
      (((encNat id.toNat).length + payload.length : Nat) : Int) := by
    unfold usizeAsI32
    rw [Nat.mod_eq_of_lt (by omega)]
    exact toI32_small hL31
  have hLb : VarIntBytes (((encNat id.toNat).length + payload.length : Nat) : Int) =
      some (encNat ((encNat id.toNat).length + payload.length)) := by
    have := VarIntBytes_nonneg (v := (((encNat id.toNat).length + payload.length : Nat) : Int))
      (by positivity) (by exact_mod_cast hL31)
    simpa using this
  have hib : VarIntBytes id = some (encNat id.toNat) := VarIntBytes_nonneg h0 h1
  refine ⟨encNat ((encNat id.toNat).length + payload.length) ++ encNat id.toNat ++ payload,
    ?_, ?_⟩
  · unfold write_generic_packet
    rw [hk]
    simp only []
    rw [hLc, hLb, hib]
  · unfold read_generic_packet frameHeader
    rw [List.append_assoc]
    have hid31 : id.toNat < 2 ^ 31 := by omega
    simp only [readVarIntFrom_encNat hL31, readVarIntFrom_encNat hid31 payload,
      Int.toNat_of_nonneg h0, hk]
    have hsub : (((((encNat id.toNat).length + payload.length : Nat) : Int) -
        ((encNat id.toNat).length : Int)) % 2 ^ 32).toNat = payload.length := by
      have he : (((encNat id.toNat).length + payload.length : Nat) : Int) -
          ((encNat id.toNat).length : Int) = (payload.length : Int) := by
        push_cast
        ring
      rw [he, Int.emod_eq_of_lt (by positivity) (by exact_mod_cast (by omega :
        payload.length < 2 ^ 32))]
      simp
    rw [hsub, toI32_small (by omega)]
    have hn : i32AsUsize ((payload.length : Nat) : Int) = payload.length := by
      unfold i32AsUsize
      rw [if_pos (by positivity)]
      simp
    rw [hn]
    unfold readExact
    rw [if_pos (le_refl payload.length)]
    simp


/-! ## Claim theorems -/

/-- C1 (counterexample): a handshake packet with next-state field 3 moves the
session's phase straight to 3 (Play), so the resulting phase is not confined
to {1 (Status), 2 (Login)}. -/
theorem c1_counterexample :
    (receivePacket ⟨0, none⟩ 0 [0, 0, 0, 0, 3] DbRes.err).1.phase = 3 ∧
    ¬((receivePacket ⟨0, none⟩ 0 [0, 0, 0, 0, 3] DbRes.err).1.phase = 1 ∨
      (receivePacket ⟨0, none⟩ 0 [0, 0, 0, 0, 3] DbRes.err).1.phase = 2) := by
  decide

/-- C1 (amended): after a handshake packet (phase 0, packet id 0) whose
payload parses successfully, the session's phase is exactly the
client-supplied next-state value, with no validation: values 1 and 2 yield
Status and Login, but any other value — 3 (Play) included — is accepted
verbatim. -/
theorem c1_phase_is_next_state (s : Session) (payload : List Nat) (db : DbRes)
    (pv ns : Int) (addr : List Nat) (port : Nat)
    (hs : s.phase = 0)
    (hp : parseHandshake payload = some (pv, addr, port, ns)) :
    (receivePacket s 0 payload db).1.phase = ns := by
  unfold receivePacket
  rw [if_pos hs]
  simp [hp]

/-- C1 (witness): the amended theorem applied to the concrete handshake
payload with next-state 3. -/
theorem c1_phase_is_next_state_witness :
    parseHandshake [0, 0, 0, 0, 3] = some (0, [], 0, 3) ∧
    (receivePacket ⟨0, none⟩ 0 [0, 0, 0, 0, 3] (DbRes.ok false)).1.phase = 3 :=
  ⟨by decide,
   c1_phase_is_next_state ⟨0, none⟩ [0, 0, 0, 0, 3] (DbRes.ok false) 0 3 [] 0 rfl (by decide)⟩

/-- C2 (counterexample): the login-start handler assigns phase 3 as its third
action, with dozens of packet sends still to follow, and on the
credential-store error path the session is kicked with the phase already 3;
so the phase does not become Play "only after the entire scripted sequence
completes successfully". -/
theorem c2_counterexample :
    (loginStartEvents DbRes.err)[2]? = some (Event.setPhase 3) ∧
    (loginStartEvents DbRes.err).length = 39 ∧
    (loginStartEvents DbRes.err).getLast? = some (Event.send 0x19) ∧
    (receivePacket ⟨2, none⟩ 0 [0] DbRes.err).1.phase = 3 ∧
    (receivePacket ⟨2, none⟩ 0 [0] DbRes.err).2.2 =
      RpResult.err (some "Database error. Please contact one of the admins.") := by
  decide

/-- C2 (amended): the login-start handler sets the phase to Play immediately
after the second packet of the scripted sequence (login-success then
join/world-info), before the remaining steps; no later event of the handler
changes the phase again, and the final session phase is 3 on every store
outcome, the error/kick path included. -/
theorem c2_phase_set_after_join (db : DbRes) :
    (loginStartEvents db).take 3 = [Event.send 0x02, Event.send 0x25, Event.setPhase 3] ∧
    ((loginStartEvents db).drop 3).all (fun e => !isPhaseSet e) = true ∧
    (receivePacket ⟨2, none⟩ 0 [0] db).1.phase = 3 := by
  cases db with
  | ok b => cases b <;> decide
  | err => decide

/-- C3: the VarInt codec does not round-trip negative values, because
`VarInt::to_bytes` (and `VarInt::length`) use the arithmetic right shift of
`i32`, so on input -1 (unsigned representative 2 ^ 32 - 1) the encode loop
never reaches its exit condition, for any amount of fuel. -/
theorem c3_encode_diverges_on_neg_one :
    toU32 (-1) = 2 ^ 32 - 1 ∧
    (∀ fuel, toBytesLoop fuel (toU32 (-1)) = none) ∧
    (∀ fuel, lengthLoop fuel (toU32 (-1)) = none) := by
  have hu : toU32 (-1) = 2 ^ 32 - 1 := by decide
  refine ⟨hu, fun fuel => ?_, fun fuel => ?_⟩
  · rw [hu]
    exact toBytesLoop_neg fuel _ (by norm_num) (by norm_num)
  · rw [hu]
    exact lengthLoop_neg fuel _ (by norm_num) (by norm_num)

/-- C4: VarInt encoding does not terminate on negative inputs: both the
`VarInt::to_bytes` loop (here at i32::MIN) and the `PacketBuilder::with_var_int`
loop (here at -1) run forever, because the arithmetic shift keeps the value
negative. -/
theorem c4_encode_nontermination :
    (∀ fuel, toBytesLoop fuel (toU32 (-2147483648)) = none) ∧
    (∀ fuel buf, withVarIntLoop fuel (toU32 (-1)) buf = none) := by
  have h1 : toU32 (-2147483648) = 2 ^ 31 := by decide
  have h2 : toU32 (-1) = 2 ^ 32 - 1 := by decide
  refine ⟨fun fuel => ?_, fun fuel buf => ?_⟩
  · rw [h1]
    exact toBytesLoop_neg fuel _ le_rfl (by norm_num)
  · rw [h2]
    exact withVarIntLoop_neg fuel _ buf (by norm_num) (by norm_num)

/-- C5: a Play-phase register command whose string splits into exactly 3
space-separated tokens, with first token "register" and differing password
tokens, kicks with "Passwords do not match." and never reaches the store's
register call (the trace holds no `dbRegister` event). -/
theorem c5_register_mismatch_kicks (username : Option (List Nat)) (cmd : List Nat)
    (db : DbRes)
    (h3 : (splitOnSpace cmd).length = 3)
    (h0 : (splitOnSpace cmd).getD 0 [] = registerCmd)
    (hne : (splitOnSpace cmd).getD 1 [] ≠ (splitOnSpace cmd).getD 2 []) :
    handleCommand username cmd db =
      (kickEvents, RpResult.err (some "Passwords do not match.")) ∧
    Event.dbRegister ∉ (handleCommand username cmd db).1 := by
  have hcmd : handleCommand username cmd db =
      (kickEvents, RpResult.err (some "Passwords do not match.")) := by
    simp only [handleCommand]
    rw [h0]
    rw [if_neg (by decide : ¬(registerCmd = loginCmd))]
    rw [if_pos rfl]
    rw [if_neg (by omega : ¬(splitOnSpace cmd).length ≠ 3)]
    rw [if_pos (⟨hne, by omega⟩ :
      (splitOnSpace cmd).getD 1 [] ≠ (splitOnSpace cmd).getD 2 [] ∧
      (splitOnSpace cmd).length ≠ 2)]
  refine ⟨hcmd, ?_⟩
  rw [hcmd]
  decide

/-- C5 (witness): the theorem applied to the command "register a b". -/
theorem c5_register_mismatch_kicks_witness :
    (splitOnSpace [114, 101, 103, 105, 115, 116, 101, 114, 32, 97, 32, 98]).length = 3 ∧
    (splitOnSpace [114, 101, 103, 105, 115, 116, 101, 114, 32, 97, 32, 98]).getD 0 [] =
      registerCmd ∧
    (splitOnSpace [114, 101, 103, 105, 115, 116, 101, 114, 32, 97, 32, 98]).getD 1 [] ≠
      (splitOnSpace [114, 101, 103, 105, 115, 116, 101, 114, 32, 97, 32, 98]).getD 2 [] ∧
    handleCommand (some [97]) [114, 101, 103, 105, 115, 116, 101, 114, 32, 97, 32, 98]
      (DbRes.ok true) = (kickEvents, RpResult.err (some "Passwords do not match.")) :=
  ⟨by decide, by decide, by decide,
   (c5_register_mismatch_kicks (some [97])
     [114, 101, 103, 105, 115, 116, 101, 114, 32, 97, 32, 98] (DbRes.ok true)
     (by decide) (by decide) (by decide)).1⟩

/-- C6 (counterexample): in the unrecognized phase 5 an incoming packet is
processed with result `Ok` and the connection loop keeps reading further
frames, so an unknown phase is not connection-fatal. -/
theorem c6_counterexample :
    receivePacket ⟨5, none⟩ 0 [] DbRes.err = (⟨5, none⟩, [], RpResult.ok) ∧
    loopContinues ⟨5, none⟩ RpResult.ok = true := by
  decide

/-- C6 (amended): in a phase outside {0, 1, 2, 3} every incoming packet is
silently ignored — no events, no state change, result `Ok` — and the
connection loop continues unless the phase happens to be the closed
sentinel -1. -/
theorem c6_unknown_phase_ignored (s : Session) (packetId : Int) (payload : List Nat)
    (db : DbRes)
    (h0 : s.phase ≠ 0) (h1 : s.phase ≠ 1) (h2 : s.phase ≠ 2) (h3 : s.phase ≠ 3) :
    receivePacket s packetId payload db = (s, [], RpResult.ok) ∧
    (s.phase ≠ -1 → loopContinues s (receivePacket s packetId payload db).2.2 = true) := by
  have hr : receivePacket s packetId payload db = (s, [], RpResult.ok) := by
    unfold receivePacket
    rw [if_neg h0, if_neg h1, if_neg h2, if_neg h3]
  refine ⟨hr, fun h => ?_⟩
  rw [hr]
  unfold loopContinues
  simp [h]

/-- C6 (witness): the amended theorem applied in phase 5 with packet id 7. -/
theorem c6_unknown_phase_ignored_witness :
    ((5 : Int) ≠ 0) ∧ ((5 : Int) ≠ 1) ∧ ((5 : Int) ≠ 2) ∧ ((5 : Int) ≠ 3) ∧
    receivePacket ⟨5, none⟩ 7 [1, 2] DbRes.err = (⟨5, none⟩, [], RpResult.ok) :=
  ⟨by decide, by decide, by decide, by decide,
   (c6_unknown_phase_ignored ⟨5, none⟩ 7 [1, 2] DbRes.err
     (by decide) (by decide) (by decide) (by decide)).1⟩

/-- C7: of the fixed-width tag variants, Short/Int/Long/Float/Double do write
their big-endian value bytes, but `NBT::to_bytes` on `Byte(b)` writes no
bytes at all — the source's `Byte` arm returns the accumulator without ever
pushing the value byte, so `Byte(1)` serializes to the empty byte string
instead of `[1]`. -/
theorem c7_byte_tag_writes_nothing :
    NBT.toBytes (NBT.Byte 1) = some [] ∧
    NBT.toBytes (NBT.Short 258) = some [1, 2] ∧
    NBT.toBytes (NBT.Int (-2)) = some [255, 255, 255, 254] ∧
    NBT.toBytes (NBT.Long 1) = some [0, 0, 0, 0, 0, 0, 0, 1] ∧
    NBT.toBytes (NBT.Float [63, 128, 0, 0]) = some [63, 128, 0, 0] ∧
    NBT.toBytes (NBT.Double [64, 8, 0, 0, 0, 0, 0, 0]) = some [64, 8, 0, 0, 0, 0, 0, 0] := by
  decide

/-- C8 (counterexample): in the login-start reply burst the set-center-chunk
packet (0x4b) is sent twice, and after the credential-existence system
message (0x5d) one more position-synchronization packet (0x39) is written;
so the sequence is not "each step sent exactly once" with "no extra packet". -/
theorem c8_counterexample :
    (sendIds (loginStartEvents (DbRes.ok false))).count 0x4b = 2 ∧
    (sendIds (loginStartEvents (DbRes.ok false))).drop 36 = [0x5d, 0x39] := by
  decide

/-- C8 (amended): for every login-start packet with a successful store
lookup, the reply packets are emitted in exactly this order: login-success,
join, slot-select, recipes, tags, entity-event, position-sync, player-info,
set-center-chunk twice, the 25 chunk packets, position-sync, the system
message, and one final (stale) position-sync. -/
theorem c8_send_order (b : Bool) :
    sendIds (loginStartEvents (DbRes.ok b)) =
      [0x02, 0x25, 0x4a, 0x6a, 0x6b, 0x1a, 0x39, 0x37, 0x4b, 0x4b] ++
      List.replicate 25 0x21 ++ [0x39, 0x5d, 0x39] := by
  cases b <;> decide

/-- Writing a frame whose id byte plus payload length is exactly `2 ^ 31`
overflows the `as i32` cast in `write_generic_packet` to `-2 ^ 31`, and the
VarInt write of that negative length never terminates. -/
theorem write_none_of_len (payload : List Nat) (h : payload.length = 2 ^ 31 - 1) :
    write_generic_packet 0 payload = none := by
  unfold write_generic_packet
  rw [show VarIntLength 0 = some 1 from by decide]
  simp only [h]
  rw [show (1 + (2 ^ 31 - 1) : Nat) = 2 ^ 31 by norm_num]
  have hcast : usizeAsI32 (2 ^ 31) = ((2 ^ 31 : Nat) : Int) - 2 ^ 32 := by
    unfold usizeAsI32 toI32
    rw [Nat.mod_eq_of_lt (by norm_num), if_neg (by norm_num)]
  rw [hcast]
  unfold VarIntBytes
  rw [show toU32 (((2 ^ 31 : Nat) : Int) - 2 ^ 32) = 2 ^ 31 by decide]
  rw [toBytesLoop_neg 40 _ le_rfl (by norm_num)]

/-- C9 (counterexample): with a payload of 2 ^ 31 - 1 bytes and packet id 0
the frame length overflows the `as i32` cast to -2 ^ 31, whose VarInt write
never terminates, so writing the frame produces nothing at all. -/
theorem c9_counterexample :
    write_generic_packet 0 (List.replicate (2 ^ 31 - 1) 0) = none :=
  write_none_of_len (List.replicate (2 ^ 31 - 1) 0) (List.length_replicate _ _)

/-- C9 (witness): the round-trip theorem applied to id 1 and payload [7]. -/
theorem c9_frame_roundtrip_witness :
    ((0 : Int) ≤ 1) ∧ ((1 : Int) < 2 ^ 31) ∧ (([7] : List Nat).length < 2 ^ 31 - 5) ∧
    (∃ bs, write_generic_packet 1 [7] = some bs ∧
      read_generic_packet bs = some ((1, [7]), [])) :=
  ⟨by norm_num, by norm_num, by norm_num,
   c9_frame_roundtrip 1 [7] (by norm_num) (by norm_num) (by norm_num)⟩

/-- C10: on the stream 0x00 0x80 0x01 — outer length 0 followed by the
two-byte encoding of packet id 128 — the frame reader computes the payload
byte count 0 - 2 as an i32 and casts it to usize, yielding 2 ^ 64 - 2 bytes
to read; likewise a string whose length VarInt decodes to -1 yields a
2 ^ 64 - 1 byte read.  Neither path raises a malformed-frame error. -/
theorem c10_negative_length_casts :
    frameHeader [0x00, 0x80, 0x01] = some (128, 2 ^ 64 - 2, []) ∧
    stringNeeded [0xFF, 0xFF, 0xFF, 0xFF, 0x0F] = some (2 ^ 64 - 1, []) := by
  decide


end VoidRs
